import Mathlib

/-!
Verification of the jsonmapper_v2 library (Go) against its specification.

Shallow embedding notes:
* Go `interface{}` values that can occur in a document or as condition operands
  are modelled by the inductive type `GoVal`.  Each constructor corresponds to
  one Go dynamic type (JSON decoding produces only `float64`, `string`, `bool`,
  `nil`, `[]interface{}` and `map[string]interface{}`, but condition operands
  supplied by a caller may carry any Go numeric type, so all of them appear).
* Go `float64` payloads are modelled by `Rat`.  Every numeric literal occurring
  in the claims is a small integer, for which the float64 representation and
  all conversions from the other numeric types are exact, so the model is
  faithful on all inputs the claims mention.  (Conversion of integers with
  magnitude above 2^53 rounds in Go and is exact here; no claim depends on
  such values.)  Integer payloads are `Int`/`Nat` without width wrapping; no
  claim exercises overflow.
* Go `map[string]interface{}` is modelled as an association list with unique
  keys, iterated in list order.  Go map iteration order is unspecified; every
  claim settled below is insensitive to sibling iteration order (this is noted
  where relevant).
* Go runtime panics (failed single-value type assertions, out-of-bounds slice
  expressions) are modelled by an explicit `fault` outcome, distinct from an
  ordinary returned `error`.
-/

/-- Go dynamic value as stored in a document or passed as a condition operand.
One constructor per Go dynamic type that the library can encounter. -/
inductive GoVal where
  | vnull
  | vbool (b : Bool)
  | vstr (s : String)
  | vf64 (x : Rat)
  | vf32 (x : Rat)
  | vint (n : Int)
  | vint8 (n : Int)
  | vint16 (n : Int)
  | vint32 (n : Int)
  | vint64 (n : Int)
  | vuint (n : Nat)
  | vuint8 (n : Nat)
  | vuint16 (n : Nat)
  | vuint32 (n : Nat)
  | vuint64 (n : Nat)
  | varr (xs : List GoVal)
  | vmap (kvs : List (String × GoVal))
deriving Repr

/-- A Go `map[string]interface{}`: association list, unique keys, list order
standing in for Go's (unspecified) iteration order. -/
abbrev GoMapT := List (String × GoVal)

/-- Lookup in a Go map (`m[k]` with comma-ok). -/
def mapGet (m : GoMapT) (k : String) : Option GoVal :=
  match m with
  | [] => none
  | (k', v) :: t => if k' = k then some v else mapGet t k

/-- Assignment `m[k] = v` on a Go map: replace the existing entry, or append. -/
def mapSet (m : GoMapT) (k : String) (v : GoVal) : GoMapT :=
  match m with
  | [] => [(k, v)]
  | (k', u) :: t => if k' = k then (k, v) :: t else (k', u) :: mapSet t k v

/-- `delete(m, k)` on a Go map (no-op when the key is absent). -/
def mapDel (m : GoMapT) (k : String) : GoMapT :=
  match m with
  | [] => []
  | (k', u) :: t => if k' = k then t else (k', u) :: mapDel t k

/-- Digit accumulator for `goAtoi`. -/
def digitsAux : List Char → Nat → Option Nat
  | [], acc => some acc
  | c :: cs, acc =>
      if c.isDigit then digitsAux cs (acc * 10 + (c.toNat - 48)) else none

/-- Parse a non-empty all-digit string. -/
def digitsToNat : List Char → Option Nat
  | [] => none
  | c :: cs => digitsAux (c :: cs) 0

/-- Go `strconv.Atoi`: optional sign followed by at least one digit.
(The int64 range check is not modelled; no claim involves such magnitudes.) -/
def goAtoi (s : String) : Option Int :=
  match s.data with
  | [] => none
  | '-' :: cs => (digitsToNat cs).map (fun n => -(n : Int))
  | '+' :: cs => (digitsToNat cs).map (fun n => (n : Int))
  | cs => (digitsToNat cs).map (fun n => (n : Int))

/-- May `c` extend a bracket-group candidate whose collected (reversed) body is
`buf`?  The Go regex is `\[\-?(\d+)\]`: an optional minus first, then digits. -/
def bracketNext (buf : List Char) (c : Char) : Bool :=
  match buf with
  | [] => c = '-' || c.isDigit
  | _ => c.isDigit

/-- Is the collected (reversed) bracket body a complete `-?\d+` match? -/
def bracketDone (buf : List Char) : Bool :=
  match buf.reverse with
  | [] => false
  | '-' :: rest => !rest.isEmpty
  | _ => true

/-- Character-level automaton for `convertBracketsToDots`: replaces each
maximal `[-?digits]` group by `.` followed by the group body, leaving
everything else untouched (exactly the Go regex replacement, which scans left
to right and cannot produce overlapping matches since every match ends in
`]`).  `buf` holds the reversed body of a candidate group currently open. -/
def convGo : List Char → Option (List Char) → List Char
  | [], none => []
  | [], some buf => '[' :: buf.reverse
  | c :: cs, none =>
      if c = '[' then convGo cs (some []) else c :: convGo cs none
  | c :: cs, some buf =>
      if c = ']' then
        if bracketDone buf then '.' :: buf.reverse ++ convGo cs none
        else '[' :: buf.reverse ++ ']' :: convGo cs none
      else if bracketNext buf c then convGo cs (some (c :: buf))
      else if c = '[' then ('[' :: buf.reverse) ++ convGo cs (some [])
      else ('[' :: buf.reverse) ++ c :: convGo cs none

/-- Go `convertBracketsToDots`. -/
def convertBracketsToDots (s : String) : String :=
  String.mk (convGo s.data none)

/-- Go `strings.Split(s, ".")` (always returns at least one token;
`Split("", ".") = [""]`). -/
def splitDots : List Char → List Char → List String
  | [], acc => [String.mk acc.reverse]
  | '.' :: cs, acc => String.mk acc.reverse :: splitDots cs []
  | c :: cs, acc => splitDots cs (c :: acc)

/-- The key sequence the library walks for a path string: bracket conversion
followed by splitting on dots. -/
def pathKeys (p : String) : List String :=
  splitDots (convertBracketsToDots p).data []

/-- Errors returned by `Find` (structured stand-ins for the `fmt.Errorf`
values in the source). -/
inductive FindErr where
  | keyNotFound (k : String)
  | invalidIndex (k : String)
  | indexOutOfRange (i : Int)
deriving Repr, DecidableEq

/-- The loop body of Go `Find`: walk the keys, looking keys up in Mappings,
parsing them as indices for Sequences, and returning the current node early
(with success) when a scalar is reached before the keys are exhausted. -/
def findLoop : GoVal → List String → Except FindErr GoVal
  | cur, [] => .ok cur
  | cur, k :: ks =>
    match cur with
    | .vmap m =>
      match mapGet m k with
      | some v => findLoop v ks
      | none => .error (.keyNotFound k)
    | .varr xs =>
      match goAtoi k with
      | none => .error (.invalidIndex k)
      | some i =>
        if h : i < 0 ∨ (xs.length : Int) ≤ i then .error (.indexOutOfRange i)
        else findLoop (xs.get ⟨i.toNat, by omega⟩) ks
    | other => .ok other

/-- Go `Find` on an arbitrary current root value (the `keyPath == ""` case
returns the root unchanged, before any splitting). -/
def goFindV (root : GoVal) (keyPath : String) : Except FindErr GoVal :=
  if keyPath = "" then .ok root else findLoop root (pathKeys keyPath)

/-- Go `(*JsonMapper).Find`: the root is the document's top-level map. -/
def goFind (d : GoMapT) (keyPath : String) : Except FindErr GoVal :=
  goFindV (.vmap d) keyPath

/-- Errors returned by Go `Add`. -/
inductive AddErr where
  | invalidIndex (k : String)      -- final token fails strconv.Atoi on a Sequence
  | indexOutOfRange (i : Int)      -- final index outside [0, len) and not -1
  | invalidIndexMid (k : String)   -- numeric-looking intermediate key absent from a Mapping
deriving Repr, DecidableEq

/-- Outcome of Go `Add`.  The `ok*` constructors all correspond to a `nil`
error return and record which final-step case fired (Mapping assignment,
in-range Sequence overwrite, Sequence append, or the silent no-op taken when
the final container is a scalar); each carries the resulting root value.
`err` carries the returned error together with the (possibly partially
mutated) root.  `fault` is a Go runtime panic. -/
inductive AddRes where
  | okMap (r : GoVal)
  | okSet (r : GoVal)
  | okAppend (r : GoVal)
  | okNoop (r : GoVal)
  | err (e : AddErr) (r : GoVal)
  | fault (msg : String)
deriving Repr

/-- Re-attach a mutated child under key `k` of map `m`.  In Go the prefix
steps mutate shared maps in place; in this functional model every step
rebuilds its parent, which also subsumes the explicit grandParent re-attach
walk of lines 130-137 (that walk revisits exactly the same all-Mapping prefix
the main loop just walked, asserting each node to be a map -- assertions that
cannot fail whenever the main loop reached its final step without a fault). -/
def addRebuild (m : GoMapT) (k : String) : AddRes → AddRes
  | .okMap r => .okMap (.vmap (mapSet m k r))
  | .okSet r => .okSet (.vmap (mapSet m k r))
  | .okAppend r => .okAppend (.vmap (mapSet m k r))
  | .okNoop r => .okNoop (.vmap (mapSet m k r))
  | .err e r => .err e (.vmap (mapSet m k r))
  | .fault s => .fault s

/-- The loop of Go `Add` (value `v` to insert, current node, remaining keys,
running loop index `i`).  Faults modelled from the source:
* a non-final step whose current node is not a Mapping panics at line 141
  (`current.(map[string]interface{})` is a single-value type assertion);
* a final Sequence step with `i == 1` panics at line 133: the re-attach walk
  evaluates `keys[1 : i-1]`, i.e. `keys[1:0]`, an out-of-bounds slice
  expression (this fires after the append/overwrite, but the process dies, so
  no document state is observable);
* with `i == 0` a final Sequence append is skipped by `if i > 0` and the
  appended slice is dropped (unreachable from the API: the root is a map). -/
def addWalk (v : GoVal) : GoVal → List String → Nat → AddRes
  | cur, [], _ => .okNoop cur
  | cur, [k], i =>
    match cur with
    | .vmap m => .okMap (.vmap (mapSet m k v))
    | .varr xs =>
      match goAtoi k with
      | none => .err (.invalidIndex k) (.varr xs)
      | some idx =>
        if idx = -1 then
          if i = 0 then .okNoop (.varr xs)
          else if i = 1 then .fault "slice bounds out of range"
          else .okAppend (.varr (xs ++ [v]))
        else if h : 0 ≤ idx ∧ idx < (xs.length : Int) then
          if i = 1 then .fault "slice bounds out of range"
          else .okSet (.varr (xs.set idx.toNat v))
        else .err (.indexOutOfRange idx) (.varr xs)
    | other => .okNoop other
  | cur, k :: k2 :: rest, i =>
    match cur with
    | .vmap m =>
      match mapGet m k with
      | some u => addRebuild m k (addWalk v u (k2 :: rest) (i + 1))
      | none =>
        match goAtoi k with
        | some _ => .err (.invalidIndexMid k) (.vmap m)
        | none => addRebuild m k (addWalk v (.vmap []) (k2 :: rest) (i + 1))
    | _ => .fault "interface conversion: interface is not map"

/-- Go `(*JsonMapper).Add`. -/
def goAdd (d : GoMapT) (keyPath : String) (v : GoVal) : AddRes :=
  addWalk v (.vmap d) (pathKeys keyPath) 0

/-- Errors returned by Go `Remove`. -/
inductive RmErr where
  | indexOutOfRange (i : Int)
  | expectedMap (k : String)
  | unexpectedType (k : String)
deriving Repr, DecidableEq

/-- Index computation of Remove's Sequence branch (lines 184-187): parse the
next key with `strconv.Atoi`; `-1` resolves to the last element; a failed
parse leaves the Go zero value `0` in `index`. -/
def rmIdx (k : String) (xs : List GoVal) : Int :=
  match goAtoi k with
  | some j => if j = -1 then (xs.length : Int) - 1 else j
  | none => 0

/-- The loop of Go `Remove`.  Structure mirrors the source:
* fewer than two keys: the loop breaks before recording `parent`, so nothing
  is deleted and `nil` is returned;
* exactly two keys remaining at a node: `parent`/`parentKey` are recorded
  BEFORE descending, so when `cur[k1]` is a Mapping the subsequent
  `delete(parent, lastKey)` removes `k2` from `cur` itself (one level above
  the Mapping that actually contains the final key); when `cur[k1]` is a
  Sequence the element at the index parsed from `k2` is spliced out (`-1`
  resolves to the last element; a failed parse leaves the Go zero value 0)
  and the spliced slice is written back as `cur[k1]`;
* more than two keys remaining: descend through a Mapping, or through a
  Sequence using the NEXT key as index (that key is then re-used as the next
  lookup key, as in the source, where the loop index advances by one only). -/
def rmLoop (cur : GoMapT) : List String → Except RmErr GoMapT
  | [] => .ok cur
  | [_] => .ok cur
  | k1 :: k2 :: rest =>
    match mapGet cur k1 with
    | some (.vmap m') =>
      match rest with
      | [] => .ok (mapDel cur k2)
      | _ :: _ => (rmLoop m' (k2 :: rest)).map (fun sub => mapSet cur k1 (.vmap sub))
    | some (.varr xs) =>
      if h : rmIdx k2 xs < 0 ∨ (xs.length : Int) ≤ rmIdx k2 xs then
        .error (.indexOutOfRange (rmIdx k2 xs))
      else
        match rest with
        | [] =>
          .ok (mapSet cur k1
            (.varr (xs.take (rmIdx k2 xs).toNat ++ xs.drop ((rmIdx k2 xs).toNat + 1))))
        | _ :: _ =>
          match xs.get ⟨(rmIdx k2 xs).toNat, by omega⟩ with
          | .vmap m'' =>
            (rmLoop m'' (k2 :: rest)).map
              (fun sub => mapSet cur k1 (.varr (xs.set (rmIdx k2 xs).toNat (.vmap sub))))
          | _ => .error (.expectedMap k2)
    | _ => .error (.unexpectedType k1)

/-- Go `(*JsonMapper).Remove`. -/
def goRemove (d : GoMapT) (keyPath : String) : Except RmErr GoMapT :=
  rmLoop d (pathKeys keyPath)

/-- `reflect.Value.Kind().String()` for each modelled dynamic type
(`reflect.ValueOf(nil).Kind()` is `Invalid`). -/
def kindString : GoVal → String
  | .vnull => "invalid"
  | .vbool _ => "bool"
  | .vstr _ => "string"
  | .vf64 _ => "float64"
  | .vf32 _ => "float32"
  | .vint _ => "int"
  | .vint8 _ => "int8"
  | .vint16 _ => "int16"
  | .vint32 _ => "int32"
  | .vint64 _ => "int64"
  | .vuint _ => "uint"
  | .vuint8 _ => "uint8"
  | .vuint16 _ => "uint16"
  | .vuint32 _ => "uint32"
  | .vuint64 _ => "uint64"
  | .varr _ => "slice"
  | .vmap _ => "map"

/-- `reflect.TypeOf`: `none` for a nil interface value, otherwise the dynamic
type (the modelled types are in bijection with their kind strings). -/
def goTypeOf : GoVal → Option String
  | .vnull => none
  | v => some (kindString v)

/-- Go `isNumeric`. -/
def goIsNumeric : GoVal → Bool
  | .vf64 _ | .vf32 _ => true
  | .vint _ | .vint8 _ | .vint16 _ | .vint32 _ | .vint64 _ => true
  | .vuint _ | .vuint8 _ | .vuint16 _ | .vuint32 _ | .vuint64 _ => true
  | _ => false

/-- Errors produced by the condition engine (structured stand-ins for the
`fmt.Errorf` values in conditions.go). -/
inductive CondErr where
  | unsupportedOperation (op : String)       -- checkCondition default case
  | unsupportedComparison (op : String)      -- "comparison %s not supported for non-numeric types"
  | unsupportedNumericOp (op : String)       -- compareNumericUsingReflect default case
  | invalidNumericType (kind : String)       -- convertToFloat64 default case
  | unsupportedLogical (op : String)         -- evaluateCondition unknown logical operator
  | invalidFormat                            -- evaluateCondition default case
  | noValidCondition                         -- evaluateCondition fall-through
deriving Repr, DecidableEq

/-- Go `convertToFloat64` (float64 payloads are exact rationals here; the
integer cases are exact for every magnitude a JSON document or the claims
use). -/
def convertToFloat64 : GoVal → Except CondErr Rat
  | .vf64 x => .ok x
  | .vf32 x => .ok x
  | .vint n | .vint8 n | .vint16 n | .vint32 n | .vint64 n => .ok (n : Rat)
  | .vuint n | .vuint8 n | .vuint16 n | .vuint32 n | .vuint64 n => .ok (n : Rat)
  | v => .error (.invalidNumericType (kindString v))

mutual
/-- `reflect.DeepEqual` restricted to the modelled value universe: values of
different dynamic types are unequal; slices compare element-wise in order;
maps compare by equal length and key-wise deep equality (order-insensitive,
as in Go); scalars compare payloads (float64 `==` is exact on `Rat`; NaN is
not representable and no claim involves it). -/
def deepEqual : GoVal → GoVal → Bool
  | .vnull, .vnull => true
  | .vbool a, .vbool b => a = b
  | .vstr a, .vstr b => a = b
  | .vf64 a, .vf64 b => a = b
  | .vf32 a, .vf32 b => a = b
  | .vint a, .vint b => a = b
  | .vint8 a, .vint8 b => a = b
  | .vint16 a, .vint16 b => a = b
  | .vint32 a, .vint32 b => a = b
  | .vint64 a, .vint64 b => a = b
  | .vuint a, .vuint b => a = b
  | .vuint8 a, .vuint8 b => a = b
  | .vuint16 a, .vuint16 b => a = b
  | .vuint32 a, .vuint32 b => a = b
  | .vuint64 a, .vuint64 b => a = b
  | .varr xs, .varr ys => deepEqualList xs ys
  | .vmap m1, .vmap m2 => m1.length = m2.length && deepEqualMap m1 m2
  | _, _ => false

/-- Element-wise deep equality of slices. -/
def deepEqualList : List GoVal → List GoVal → Bool
  | [], [] => true
  | x :: xs, y :: ys => deepEqual x y && deepEqualList xs ys
  | _, _ => false

/-- Every key of the first map is present in the second with a deeply equal
value. -/
def deepEqualMap : List (String × GoVal) → GoMapT → Bool
  | [], _ => true
  | (k, v) :: t, m2 =>
    match mapGet m2 k with
    | some v2 => deepEqual v v2 && deepEqualMap t m2
    | none => false
end

/-- Go `compareNumericUsingReflect`. -/
def compareNumericUsingReflect (v t : GoVal) (op : String) : Except CondErr Bool :=
  match convertToFloat64 v with
  | .error e => .error e
  | .ok x =>
    match convertToFloat64 t with
    | .error e => .error e
    | .ok y =>
      if op = "lt" then .ok (decide (x < y))
      else if op = "lte" then .ok (decide (x ≤ y))
      else if op = "gt" then .ok (decide (y < x))
      else if op = "gte" then .ok (decide (y ≤ x))
      else .error (.unsupportedNumericOp op)

/-- The guard on line 211 of conditions.go.  Because `&&` binds tighter than
`||` in Go, the condition is
`vValue.Kind == int  OR  (vValue.Kind == float64 AND (vThreshold.Kind == int OR vThreshold.Kind == float64))`,
so the threshold's kind is not checked at all when the value is an `int`, and
every numeric kind other than `int`/`float64` is rejected outright. -/
def ordGuard (v t : GoVal) : Bool :=
  kindString v = "int" ||
    (kindString v = "float64" && (kindString t = "int" || kindString t = "float64"))

/-- Go `checkCondition`. -/
def checkCondition (v : GoVal) (op : String) (t : GoVal) : Except CondErr Bool :=
  if op = "eq" then
    if goIsNumeric v && goIsNumeric t then
      match convertToFloat64 v with
      | .error e => .error e
      | .ok x =>
        match convertToFloat64 t with
        | .error e => .error e
        | .ok y => .ok (decide (x = y))
    else .ok (deepEqual v t)
  else if op = "neq" then
    if goTypeOf v ≠ goTypeOf t then .ok true
    else .ok (!deepEqual v t)
  else if op = "lt" ∨ op = "lte" ∨ op = "gt" ∨ op = "gte" then
    if ordGuard v t then compareNumericUsingReflect v t op
    else .error (.unsupportedComparison op)
  else .error (.unsupportedOperation op)

/-- A flat condition map `{op: operand}` as an entry list. -/
abbrev FlatCond := List (String × GoVal)

/-- The `conditions interface{}` argument: either a `map[string]interface{}`
(flat comparison map) or a `map[string][]map[string]interface{}` (a logical
operator over a list of flat maps); any other dynamic type hits
`evaluateCondition`'s default case. -/
inductive Cond where
  | flat (entries : FlatCond)
  | logical (entries : List (String × List FlatCond))
  | other
deriving Repr

/-- Concatenate the entry lists of a list of flat condition maps.  The four
logical operators of `evaluateCondition` all iterate the sub-condition maps
outer-to-inner in order; their short-circuit and error behaviour is a scan of
this concatenated entry sequence (for `or`, the double `break` after a
satisfied entry skips the rest of the current map and all later maps, i.e.
exactly the rest of the concatenation). -/
def concatConds : List FlatCond → FlatCond
  | [] => []
  | cm :: t => cm ++ concatConds t

/-- The `and` loop: false on the first unsatisfied entry, error on the first
failing entry, true when all entries hold (vacuously true when empty). -/
def andScan (v : GoVal) : FlatCond → Except CondErr Bool
  | [] => .ok true
  | (op, cv) :: t =>
    match checkCondition v op cv with
    | .error e => .error e
    | .ok false => .ok false
    | .ok true => andScan v t

/-- The `or` loop: true on the first satisfied entry, error on the first
failing entry, false when none holds. -/
def orScan (v : GoVal) : FlatCond → Except CondErr Bool
  | [] => .ok false
  | (op, cv) :: t =>
    match checkCondition v op cv with
    | .error e => .error e
    | .ok true => .ok true
    | .ok false => orScan v t

/-- The `nor` loop: false on the first satisfied entry, error on the first
failing entry, true when none holds (vacuously true when empty). -/
def norScan (v : GoVal) : FlatCond → Except CondErr Bool
  | [] => .ok true
  | (op, cv) :: t =>
    match checkCondition v op cv with
    | .error e => .error e
    | .ok true => .ok false
    | .ok false => norScan v t

/-- The `xor` loop: counts satisfied entries over the whole list (no
satisfaction short-circuit), error on the first failing entry, true iff the
final count is exactly one. -/
def xorScan (v : GoVal) (cnt : Nat) : FlatCond → Except CondErr Bool
  | [] => .ok (cnt = 1)
  | (op, cv) :: t =>
    match checkCondition v op cv with
    | .error e => .error e
    | .ok true => xorScan v (cnt + 1) t
    | .ok false => xorScan v cnt t

/-- Go `evaluateCondition`.  A Go `range` over the condition map returns from
its first iteration; the model takes the head entry (every condition a claim
mentions has exactly one entry, so map iteration order is immaterial). -/
def evalCondition (v : GoVal) : Cond → Except CondErr Bool
  | .flat [] => .error .noValidCondition
  | .flat ((op, cv) :: _) => checkCondition v op cv
  | .logical [] => .error .noValidCondition
  | .logical ((lop, subs) :: _) =>
    if lop = "and" ∨ lop = "AND" then andScan v (concatConds subs)
    else if lop = "or" ∨ lop = "OR" then orScan v (concatConds subs)
    else if lop = "xor" ∨ lop = "XOR" then xorScan v 0 (concatConds subs)
    else if lop = "nor" ∨ lop = "NOR" then norScan v (concatConds subs)
    else .error (.unsupportedLogical lop)
  | .other => .error .invalidFormat

/-- Child path for a Mapping entry in `FindAllWithCondition`. -/
def childPathM (path k : String) : String :=
  if path = "" then k else path ++ "." ++ k

/-- Child path for a Sequence element in `FindAllWithCondition`
(`fmt.Sprintf("%s[%d]", path, i)`). -/
def childPathA (path : String) (i : Nat) : String :=
  path ++ "[" ++ toString i ++ "]"

mutual
/-- The recursive `evaluate` closure of `FindAllWithCondition`, restricted to
the paths it appends.  Crucially, the closure DISCARDS the error results of
its recursive calls (lines 44 and 49 of conditions.go), so a leaf whose
evaluation fails below a container contributes nothing and no error: only a
leaf at the very start node can surface an error (handled in `goFindAll`). -/
def faCollect (c : Cond) : GoVal → String → List String
  | .vmap kvs, path => faCollectMap c kvs path
  | .varr xs, path => faCollectArr c xs path 0
  | v, path =>
    match evalCondition v c with
    | .ok true => [path]
    | _ => []

/-- Mapping children of the traversal, in entry order. -/
def faCollectMap (c : Cond) : List (String × GoVal) → String → List String
  | [], _ => []
  | (k, v) :: t, path => faCollect c v (childPathM path k) ++ faCollectMap c t path

/-- Sequence children of the traversal, in element order. -/
def faCollectArr (c : Cond) : List GoVal → String → Nat → List String
  | [], _, _ => []
  | v :: t, path, i => faCollect c v (childPathA path i) ++ faCollectArr c t path (i + 1)
end

/-- Errors surfaced by `FindAllWithCondition`: either the start-path `Find`
failed, or the start node itself is a leaf whose evaluation failed. -/
inductive FAErr where
  | findErr (e : FindErr)
  | condErr (e : CondErr)
deriving Repr, DecidableEq

/-- Go `FindAllWithCondition`. -/
def goFindAll (d : GoMapT) (keyPath : String) (c : Cond) : Except FAErr (List String) :=
  let start : Except FindErr GoVal :=
    if keyPath = "" then .ok (.vmap d) else goFind d keyPath
  match start with
  | .error e => .error (.findErr e)
  | .ok sv =>
    match sv with
    | .vmap kvs => .ok (faCollectMap c kvs keyPath)
    | .varr xs => .ok (faCollectArr c xs keyPath 0)
    | leaf =>
      match evalCondition leaf c with
      | .error e => .error (.condErr e)
      | .ok true => .ok [keyPath]
      | .ok false => .ok []

/-! ### Helper lemmas -/

theorem mapGet_mapSet_self (m : GoMapT) (k : String) (v : GoVal) :
    mapGet (mapSet m k v) k = some v := by
  induction m with
  | nil => simp [mapSet, mapGet]
  | cons hd t ih =>
    obtain ⟨k', u⟩ := hd
    by_cases hk : k' = k
    · subst hk
      simp [mapSet, mapGet]
    · simp [mapSet, mapGet, hk, ih]

theorem getLast?_append_singleton {α : Type} (l : List α) (a : α) :
    (l ++ [a]).getLast? = some a := by
  rw [List.getLast?_concat]

theorem addRebuild_okMap (m : GoMapT) (k : String) (res : AddRes) (r : GoVal)
    (h : addRebuild m k res = .okMap r) :
    ∃ r', res = .okMap r' ∧ r = .vmap (mapSet m k r') := by
  cases res <;> simp_all [addRebuild]

theorem addRebuild_okSet (m : GoMapT) (k : String) (res : AddRes) (r : GoVal)
    (h : addRebuild m k res = .okSet r) :
    ∃ r', res = .okSet r' ∧ r = .vmap (mapSet m k r') := by
  cases res <;> simp_all [addRebuild]

theorem addRebuild_okAppend (m : GoMapT) (k : String) (res : AddRes) (r : GoVal)
    (h : addRebuild m k res = .okAppend r) :
    ∃ r', res = .okAppend r' ∧ r = .vmap (mapSet m k r') := by
  cases res <;> simp_all [addRebuild]

/-- If the final step of a successful `Add` wrote into a Mapping, `Find` along
the same keys reads the written value back. -/
theorem addWalk_okMap_find (ks : List String) (v cur : GoVal) (i : Nat) (r : GoVal)
    (h : addWalk v cur ks i = .okMap r) : findLoop r ks = .ok v := by
  induction ks generalizing cur i r with
  | nil => simp [addWalk] at h
  | cons k ks ih =>
    cases ks with
    | nil =>
      cases cur with
      | vmap m =>
        simp [addWalk] at h
        subst h
        simp [findLoop, mapGet_mapSet_self]
      | varr xs =>
        cases hA : goAtoi k with
        | none => simp [addWalk, hA] at h
        | some idx =>
          simp only [addWalk, hA] at h
          split_ifs at h <;> simp_all
      | _ => simp [addWalk] at h
    | cons k2 rest =>
      cases cur with
      | vmap m =>
        cases hG : mapGet m k with
        | some u =>
          simp only [addWalk, hG] at h
          obtain ⟨r', hu, hr⟩ := addRebuild_okMap _ _ _ _ h
          subst hr
          simp only [findLoop, mapGet_mapSet_self]
          exact ih u (i + 1) r' hu
        | none =>
          cases hA : goAtoi k with
          | some j => simp [addWalk, hG, hA] at h
          | none =>
            simp only [addWalk, hG, hA] at h
            obtain ⟨r', hu, hr⟩ := addRebuild_okMap _ _ _ _ h
            subst hr
            simp only [findLoop, mapGet_mapSet_self]
            exact ih (.vmap []) (i + 1) r' hu
      | _ => simp [addWalk] at h

/-- If the final step of a successful `Add` overwrote a Sequence element in
range, `Find` along the same keys reads the written value back. -/
theorem addWalk_okSet_find (ks : List String) (v cur : GoVal) (i : Nat) (r : GoVal)
    (h : addWalk v cur ks i = .okSet r) : findLoop r ks = .ok v := by
  induction ks generalizing cur i r with
  | nil => simp [addWalk] at h
  | cons k ks ih =>
    cases ks with
    | nil =>
      cases cur with
      | vmap m => simp [addWalk] at h
      | varr xs =>
        cases hA : goAtoi k with
        | none => simp [addWalk, hA] at h
        | some idx =>
          simp only [addWalk, hA] at h
          by_cases h1 : idx = -1
          · rw [if_pos h1] at h
            split_ifs at h <;> simp at h
          · rw [if_neg h1] at h
            by_cases hb : 0 ≤ idx ∧ idx < (xs.length : Int)
            · rw [dif_pos hb] at h
              by_cases hi : i = 1
              · rw [if_pos hi] at h
                simp at h
              · rw [if_neg hi] at h
                simp only [AddRes.okSet.injEq] at h
                subst h
                simp only [findLoop, hA]
                rw [dif_neg (by simp only [List.length_set]; omega)]
                simp [findLoop, List.get_eq_getElem]
            · rw [dif_neg hb] at h
              simp at h
      | _ => simp [addWalk] at h
    | cons k2 rest =>
      cases cur with
      | vmap m =>
        cases hG : mapGet m k with
        | some u =>
          simp only [addWalk, hG] at h
          obtain ⟨r', hu, hr⟩ := addRebuild_okSet _ _ _ _ h
          subst hr
          simp only [findLoop, mapGet_mapSet_self]
          exact ih u (i + 1) r' hu
        | none =>
          cases hA : goAtoi k with
          | some j => simp [addWalk, hG, hA] at h
          | none =>
            simp only [addWalk, hG, hA] at h
            obtain ⟨r', hu, hr⟩ := addRebuild_okSet _ _ _ _ h
            subst hr
            simp only [findLoop, mapGet_mapSet_self]
            exact ih (.vmap []) (i + 1) r' hu
      | _ => simp [addWalk] at h

/-- If the final step of a successful `Add` appended to a Sequence (token
`-1`), the Sequence found at the parent path ends with the appended value,
and `Find` at the full path fails with index-out-of-range `-1`. -/
theorem addWalk_okAppend_find (ks : List String) (v cur : GoVal) (i : Nat) (r : GoVal)
    (h : addWalk v cur ks i = .okAppend r) :
    (∃ ys, findLoop r ks.dropLast = .ok (.varr ys) ∧ ys.getLast? = some v) ∧
      findLoop r ks = .error (.indexOutOfRange (-1)) := by
  induction ks generalizing cur i r with
  | nil => simp [addWalk] at h
  | cons k ks ih =>
    cases ks with
    | nil =>
      cases cur with
      | vmap m => simp [addWalk] at h
      | varr xs =>
        cases hA : goAtoi k with
        | none => simp [addWalk, hA] at h
        | some idx =>
          simp only [addWalk, hA] at h
          by_cases h1 : idx = -1
          · rw [if_pos h1] at h
            by_cases h2 : i = 0
            · rw [if_pos h2] at h
              simp at h
            · rw [if_neg h2] at h
              by_cases h3 : i = 1
              · rw [if_pos h3] at h
                simp at h
              · rw [if_neg h3] at h
                simp only [AddRes.okAppend.injEq] at h
                subst h
                subst h1
                constructor
                · exact ⟨xs ++ [v], rfl, getLast?_append_singleton xs v⟩
                · simp only [findLoop, hA]
                  rw [dif_pos (by left; omega)]
          · rw [if_neg h1] at h
            by_cases hb : 0 ≤ idx ∧ idx < (xs.length : Int)
            · rw [dif_pos hb] at h
              split_ifs at h <;> simp at h
            · rw [dif_neg hb] at h
              simp at h
      | _ => simp [addWalk] at h
    | cons k2 rest =>
      cases cur with
      | vmap m =>
        cases hG : mapGet m k with
        | some u =>
          simp only [addWalk, hG] at h
          obtain ⟨r', hu, hr⟩ := addRebuild_okAppend _ _ _ _ h
          subst hr
          obtain ⟨⟨ys, hfind, hlast⟩, herr⟩ := ih u (i + 1) r' hu
          refine ⟨⟨ys, ?_, hlast⟩, ?_⟩
          · show findLoop _ (k :: (k2 :: rest).dropLast) = _
            simp only [findLoop, mapGet_mapSet_self]
            exact hfind
          · simp only [findLoop, mapGet_mapSet_self]
            exact herr
        | none =>
          cases hA : goAtoi k with
          | some j => simp [addWalk, hG, hA] at h
          | none =>
            simp only [addWalk, hG, hA] at h
            obtain ⟨r', hu, hr⟩ := addRebuild_okAppend _ _ _ _ h
            subst hr
            obtain ⟨⟨ys, hfind, hlast⟩, herr⟩ := ih (.vmap []) (i + 1) r' hu
            refine ⟨⟨ys, ?_, hlast⟩, ?_⟩
            · show findLoop _ (k :: (k2 :: rest).dropLast) = _
              simp only [findLoop, mapGet_mapSet_self]
              exact hfind
            · simp only [findLoop, mapGet_mapSet_self]
              exact herr
      | _ => simp [addWalk] at h

/-! ### Claim theorems -/

/-- C1 (amended): for every document, non-empty path and value, if Add
returns nil AND its final step actually wrote (the walk's final container is
a Mapping or a Sequence -- when the walk reaches a scalar before the final
step, Add returns nil without writing anything), then Find at the same path
returns the written value; except that when the final step is the append
sentinel `-1`, the Sequence found at the parent path now ends with the
appended value and Find at the full path itself fails with index -1 out of
range. -/
theorem claim_C1 (d : GoMapT) (p : String) (v : GoVal) (hp : p ≠ "") :
    (∀ r, goAdd d p v = .okMap r → goFindV r p = .ok v) ∧
    (∀ r, goAdd d p v = .okSet r → goFindV r p = .ok v) ∧
    (∀ r, goAdd d p v = .okAppend r →
      (∃ ys, findLoop r (pathKeys p).dropLast = .ok (.varr ys) ∧ ys.getLast? = some v) ∧
        goFindV r p = .error (.indexOutOfRange (-1))) := by
  refine ⟨fun r h => ?_, fun r h => ?_, fun r h => ?_⟩
  · rw [goFindV, if_neg hp]
    exact addWalk_okMap_find (pathKeys p) v (.vmap d) 0 r h
  · rw [goFindV, if_neg hp]
    exact addWalk_okSet_find (pathKeys p) v (.vmap d) 0 r h
  · have h2 := addWalk_okAppend_find (pathKeys p) v (.vmap d) 0 r h
    refine ⟨h2.1, ?_⟩
    rw [goFindV, if_neg hp]
    exact h2.2

/-- C1 witness: on `{"a":{"b":1}}`, `Add("a.b", 2)` hits the Mapping-write
case and the theorem yields `Find("a.b") = 2` on the updated document. -/
theorem claim_C1_witness :
    goFindV (.vmap [("a", GoVal.vmap [("b", GoVal.vf64 2)])]) "a.b" = .ok (.vf64 2) :=
  (claim_C1 [("a", GoVal.vmap [("b", GoVal.vf64 1)])] "a.b" (.vf64 2) (by decide)).1 _ rfl

/-- C1 counterexample to the claim as stated: on `{"a":1}`, `Add("a.b", 2)`
returns nil (success) without writing -- the walk reaches the scalar `1` and
the final-step switch has no matching case -- so `Find("a.b")` returns `1`,
not the inserted `2`, although the final step is not the append sentinel. -/
theorem claim_C1_counterexample :
    goAdd [("a", GoVal.vf64 1)] "a.b" (.vf64 2) = .okNoop (.vmap [("a", GoVal.vf64 1)]) ∧
    goFind [("a", GoVal.vf64 1)] "a.b" = .ok (.vf64 1) ∧
    GoVal.vf64 1 ≠ GoVal.vf64 2 := by
  refine ⟨rfl, rfl, fun hc => ?_⟩
  injection hc with h
  exact absurd h (by norm_num)

/-- C2: the claim says the core operations never abort with an uncatchable
fault.  But Go `Add` panics:
* `Add("a.-1", 2)` on `{"a":[10]}` appends, then the re-attach walk evaluates
  the slice expression `keys[1 : i-1] = keys[1:0]`, which is out of bounds
  (low > high) and panics at runtime;
* `Add("a.0.b", 2)` on `{"a":[10]}` panics at the intermediate step: line 141
  single-value-asserts the current node (a Sequence) to
  `map[string]interface{}`. -/
theorem claim_C2 :
    goAdd [("a", GoVal.varr [GoVal.vf64 10])] "a.-1" (.vf64 2) =
      .fault "slice bounds out of range" ∧
    goAdd [("a", GoVal.varr [GoVal.vf64 10])] "a.0.b" (.vf64 2) =
      .fault "interface conversion: interface is not map" := ⟨rfl, rfl⟩

/-- C3: the claim says Remove-then-Find never leaves a dangling read.  But Go
`Remove` deletes nothing on a single-segment path (the loop breaks before
`parent` is recorded), and on a two-segment path through a Mapping it deletes
the final key from the map one level too shallow (`parent` is recorded before
descending), so in both cases Remove returns nil yet Find still succeeds. -/
theorem claim_C3 :
    goRemove [("a", GoVal.vf64 1)] "a" = .ok [("a", GoVal.vf64 1)] ∧
    goFind [("a", GoVal.vf64 1)] "a" = .ok (.vf64 1) ∧
    goRemove [("a", GoVal.vmap [("b", GoVal.vf64 1)])] "a.b" =
      .ok [("a", GoVal.vmap [("b", GoVal.vf64 1)])] ∧
    goFind [("a", GoVal.vmap [("b", GoVal.vf64 1)])] "a.b" = .ok (.vf64 1) :=
  ⟨rfl, rfl, rfl, rfl⟩

/-- C5: the claim says leaf evaluation errors below the start node are
surfaced.  But the recursive `evaluate` closure discards the error of every
recursive call (lines 44/49), so on `{"a":{"b":1}}` with the unsupported
operator `bogus` -- whose evaluation at the leaf `1` fails with
UnsupportedOperator -- `FindAllWithCondition("a", ...)` returns an empty path
list and a nil error. -/
theorem claim_C5 :
    goFindAll [("a", GoVal.vmap [("b", GoVal.vf64 1)])] "a"
        (.flat [("bogus", GoVal.vf64 2)]) = .ok [] ∧
    checkCondition (.vf64 1) "bogus" (.vf64 2) =
      .error (.unsupportedOperation "bogus") := ⟨rfl, rfl⟩

/-- Specification-side description of a path prefix that resolves through
Mapping keys only: walking `ks` from `d` through nested Mappings reaches the
returned map.  (Used as the hypothesis of the Remove splice claims, whose
spec sources speak of a Sequence reached inside its Mapping parent.) -/
def mapPrefix : GoMapT → List String → Option GoMapT
  | m, [] => some m
  | m, k :: ks =>
    match mapGet m k with
    | some (.vmap m') => mapPrefix m' ks
    | _ => none

/-- Remove on a path `ks ++ [k, t]` whose prefix `ks` resolves through
Mappings to a map whose key `k` holds a Sequence: when the computed index is
in range the element is spliced out and the spliced Sequence is written back
under `k` in the same Mapping parent. -/
theorem rmLoop_splice (ks : List String) (k t : String) (xs : List GoVal)
    (d m : GoMapT)
    (hreach : mapPrefix d ks = some m)
    (hseq : mapGet m k = some (.varr xs))
    (hb : ¬(rmIdx t xs < 0 ∨ (xs.length : Int) ≤ rmIdx t xs)) :
    ∃ d', rmLoop d (ks ++ [k, t]) = .ok d' ∧
      ∃ m', mapPrefix d' ks = some m' ∧
        mapGet m' k =
          some (.varr (xs.take (rmIdx t xs).toNat ++ xs.drop ((rmIdx t xs).toNat + 1))) := by
  induction ks generalizing d m with
  | nil =>
    simp only [mapPrefix, Option.some.injEq] at hreach
    subst hreach
    refine ⟨mapSet d k (.varr (xs.take (rmIdx t xs).toNat ++ xs.drop ((rmIdx t xs).toNat + 1))), ?_, ?_⟩
    · show rmLoop d [k, t] = _
      simp only [rmLoop, hseq]
      rw [dif_neg hb]
    · exact ⟨_, rfl, mapGet_mapSet_self _ _ _⟩
  | cons k' ks' ih =>
    cases hG : mapGet d k' with
    | none => simp [mapPrefix, hG] at hreach
    | some u =>
      cases u <;> simp only [mapPrefix, hG] at hreach <;> try exact absurd hreach (by simp)
      case vmap m₁ =>
        obtain ⟨sub, hrm, m', hmp, hget⟩ := ih m₁ m hreach hseq
        cases ks' with
        | nil =>
          refine ⟨mapSet d k' (.vmap sub), ?_, ?_⟩
          · show rmLoop d (k' :: k :: [t]) = _
            simp only [rmLoop, hG]
            have h2 : Except.map (fun s => mapSet d k' (GoVal.vmap s)) (rmLoop m₁ [k, t]) =
                Except.ok (mapSet d k' (GoVal.vmap sub)) := by
              rw [show rmLoop m₁ [k, t] = .ok sub from hrm]
              rfl
            exact h2
          · refine ⟨m', ?_, hget⟩
            simp only [mapPrefix, mapGet_mapSet_self]
            exact hmp
        | cons c ks'' =>
          cases hr : ks'' ++ [k, t] with
          | nil => exact absurd hr (by simp)
          | cons c2 r2 =>
            have hrm' : rmLoop m₁ (c :: c2 :: r2) = .ok sub := by
              rw [← hr]; exact hrm
            refine ⟨mapSet d k' (.vmap sub), ?_, ?_⟩
            · show rmLoop d (k' :: c :: (ks'' ++ [k, t])) = _
              rw [hr]
              simp only [rmLoop, hG]
              have h2 : Except.map (fun s => mapSet d k' (GoVal.vmap s)) (rmLoop m₁ (c :: c2 :: r2)) =
                  Except.ok (mapSet d k' (GoVal.vmap sub)) := by
                rw [hrm']
                rfl
              exact h2
            · refine ⟨m', ?_, hget⟩
              simp only [mapPrefix, mapGet_mapSet_self]
              exact hmp

/-- C9: for every Sequence `xs` and in-range index (with `-1` resolving to
the last element), Remove on a path whose prefix resolves through Mappings to
the Sequence's parent splices out exactly that element -- the result is
`take i ++ drop (i+1)`, preserving the relative order of the rest, its length
is `n - 1`, and it is written back into the Mapping parent under the key the
Sequence was reached by. -/
theorem claim_C9 (p : String) (ks : List String) (k t : String) (xs : List GoVal)
    (d m : GoMapT) (j : Int)
    (hp : pathKeys p = ks ++ [k, t])
    (hreach : mapPrefix d ks = some m)
    (hseq : mapGet m k = some (.varr xs))
    (ht : goAtoi t = some j)
    (hin : (j = -1 ∧ xs ≠ []) ∨ (0 ≤ j ∧ j < (xs.length : Int))) :
    ∃ i : Nat, i = (if j = -1 then xs.length - 1 else j.toNat) ∧
      (xs.take i ++ xs.drop (i + 1)).length = xs.length - 1 ∧
      ∃ d', goRemove d p = .ok d' ∧
        ∃ m', mapPrefix d' ks = some m' ∧
          mapGet m' k = some (.varr (xs.take i ++ xs.drop (i + 1))) := by
  have hxs : xs ≠ [] := by
    rcases hin with ⟨_, h⟩ | ⟨h0, hlt⟩
    · exact h
    · intro hnil; subst hnil; simp at hlt; omega
  have hlen : 0 < xs.length := List.length_pos.mpr hxs
  have hidx : rmIdx t xs = (if j = -1 then (xs.length : Int) - 1 else j) := by
    simp [rmIdx, ht]
  have hb : ¬(rmIdx t xs < 0 ∨ (xs.length : Int) ≤ rmIdx t xs) := by
    rw [hidx]
    rcases hin with ⟨hj, _⟩ | ⟨h0, hlt⟩ <;> split_ifs <;> omega
  obtain ⟨d', hrm, m', hmp, hget⟩ := rmLoop_splice ks k t xs d m hreach hseq hb
  refine ⟨(rmIdx t xs).toNat, ?_, ?_, d', ?_, m', hmp, hget⟩
  · rw [hidx]
    split_ifs with hj <;> omega
  · have : (rmIdx t xs).toNat < xs.length := by omega
    simp only [List.length_append, List.length_take, List.length_drop]
    omega
  · rw [goRemove, hp]
    exact hrm

/-- C9 witness: on `{"a":{"c":[10,20,30]}}`, `Remove("a.c.1")` yields
`a.c = [10,30]`. -/
theorem claim_C9_witness :
    ∃ i : Nat, i = 1 ∧
      ([GoVal.vf64 10, GoVal.vf64 20, GoVal.vf64 30].take i ++
        [GoVal.vf64 10, GoVal.vf64 20, GoVal.vf64 30].drop (i + 1)).length = 2 ∧
      ∃ d', goRemove [("a", GoVal.vmap [("c", GoVal.varr [GoVal.vf64 10, GoVal.vf64 20, GoVal.vf64 30])])] "a.c.1" = .ok d' ∧
        ∃ m', mapPrefix d' ["a"] = some m' ∧
          mapGet m' "c" =
            some (.varr ([GoVal.vf64 10, GoVal.vf64 20, GoVal.vf64 30].take i ++
              [GoVal.vf64 10, GoVal.vf64 20, GoVal.vf64 30].drop (i + 1))) :=
  claim_C9 "a.c.1" ["a"] "c" "1" [GoVal.vf64 10, GoVal.vf64 20, GoVal.vf64 30]
    [("a", GoVal.vmap [("c", GoVal.varr [GoVal.vf64 10, GoVal.vf64 20, GoVal.vf64 30])])]
    [("c", GoVal.varr [GoVal.vf64 10, GoVal.vf64 20, GoVal.vf64 30])] 1
    rfl rfl rfl rfl (Or.inr (by norm_num))

/-- C10: when the final token of a Remove path does not parse as an integer
but the penultimate step resolves (through Mapping keys) to a non-empty
Sequence, Remove returns nil rather than an error: the failed
`strconv.Atoi` leaves the index at the Go zero value 0, so the FIRST element
of the Sequence is spliced out. -/
theorem claim_C10 (p : String) (ks : List String) (k t : String) (xs : List GoVal)
    (d m : GoMapT)
    (hp : pathKeys p = ks ++ [k, t])
    (hreach : mapPrefix d ks = some m)
    (hseq : mapGet m k = some (.varr xs))
    (ht : goAtoi t = none)
    (hxs : xs ≠ []) :
    ∃ d', goRemove d p = .ok d' ∧
      ∃ m', mapPrefix d' ks = some m' ∧
        mapGet m' k = some (.varr xs.tail) := by
  have hlen : 0 < xs.length := List.length_pos.mpr hxs
  have hidx : rmIdx t xs = 0 := by simp [rmIdx, ht]
  have hb : ¬(rmIdx t xs < 0 ∨ (xs.length : Int) ≤ rmIdx t xs) := by
    rw [hidx]; omega
  obtain ⟨d', hrm, m', hmp, hget⟩ := rmLoop_splice ks k t xs d m hreach hseq hb
  refine ⟨d', ?_, m', hmp, ?_⟩
  · rw [goRemove, hp]
    exact hrm
  · rw [hget, hidx]
    simp [List.drop_one]

/-- C10 witness: on `{"a":{"c":[10,20,30]}}`, `Remove("a.c.foo")` succeeds
and removes the first element, leaving `a.c = [20,30]`. -/
theorem claim_C10_witness :
    ∃ d', goRemove [("a", GoVal.vmap [("c", GoVal.varr [GoVal.vf64 10, GoVal.vf64 20, GoVal.vf64 30])])] "a.c.foo" = .ok d' ∧
      ∃ m', mapPrefix d' ["a"] = some m' ∧
        mapGet m' "c" = some (.varr [GoVal.vf64 20, GoVal.vf64 30]) :=
  claim_C10 "a.c.foo" ["a"] "c" "foo" [GoVal.vf64 10, GoVal.vf64 20, GoVal.vf64 30]
    [("a", GoVal.vmap [("c", GoVal.varr [GoVal.vf64 10, GoVal.vf64 20, GoVal.vf64 30])])]
    [("c", GoVal.varr [GoVal.vf64 10, GoVal.vf64 20, GoVal.vf64 30])]
    rfl rfl rfl rfl (by simp)

/-- The claim-side comparison each ordering operator denotes on the converted
64-bit values. -/
def ordCompare (op : String) (x y : Rat) : Bool :=
  if op = "lt" then decide (x < y)
  else if op = "lte" then decide (x ≤ y)
  else if op = "gt" then decide (y < x)
  else decide (y ≤ x)

theorem checkCondition_ord (v t : GoVal) (op : String)
    (hop : op = "lt" ∨ op = "lte" ∨ op = "gt" ∨ op = "gte") :
    checkCondition v op t =
      if ordGuard v t then compareNumericUsingReflect v t op
      else .error (.unsupportedComparison op) := by
  rcases hop with h | h | h | h <;> subst h <;> rfl

theorem convertToFloat64_ok_of_numeric (t : GoVal) (ht : goIsNumeric t) :
    ∃ y, convertToFloat64 t = .ok y := by
  cases t <;> simp [goIsNumeric] at ht <;> exact ⟨_, rfl⟩

theorem convertToFloat64_err_of_nonnumeric (t : GoVal) (ht : goIsNumeric t = false) :
    convertToFloat64 t = .error (.invalidNumericType (kindString t)) := by
  cases t <;> simp [goIsNumeric] at ht <;> rfl

theorem convertToFloat64_ok_of_ordGuard (v t : GoVal) (hg : ordGuard v t) :
    ∃ x, convertToFloat64 v = .ok x := by
  cases v <;> simp [ordGuard, kindString] at hg <;> exact ⟨_, rfl⟩

/-- C6 (amended): the `||`/`&&` precedence on line 211 makes the guard of the
ordering operators `value kind is int, OR (value kind is float64 AND operand
kind is int or float64)` rather than "both sides numeric".  When the guard
fails -- which includes fully numeric pairs such as a float32 value -- the
error is UnsupportedComparison; when it holds the two sides are converted and
compared, except that with an `int` value and a NON-numeric operand the
conversion of the operand fails and that conversion error (InvalidNumericType,
not UnsupportedComparison) is returned. -/
theorem claim_C6 (v t : GoVal) (op : String)
    (hop : op = "lt" ∨ op = "lte" ∨ op = "gt" ∨ op = "gte") :
    (¬ ordGuard v t → checkCondition v op t = .error (.unsupportedComparison op)) ∧
    (ordGuard v t → goIsNumeric t →
      ∃ x y, convertToFloat64 v = .ok x ∧ convertToFloat64 t = .ok y ∧
        checkCondition v op t = .ok (ordCompare op x y)) ∧
    (ordGuard v t → goIsNumeric t = false →
      checkCondition v op t = .error (.invalidNumericType (kindString t))) := by
  refine ⟨fun hg => ?_, fun hg ht => ?_, fun hg ht => ?_⟩
  · rw [checkCondition_ord v t op hop, if_neg (by simpa using hg)]
  · obtain ⟨x, hx⟩ := convertToFloat64_ok_of_ordGuard v t hg
    obtain ⟨y, hy⟩ := convertToFloat64_ok_of_numeric t ht
    refine ⟨x, y, hx, hy, ?_⟩
    rw [checkCondition_ord v t op hop, if_pos hg]
    simp only [compareNumericUsingReflect, hx, hy]
    rcases hop with h | h | h | h <;> subst h <;> simp [ordCompare]
  · obtain ⟨x, hx⟩ := convertToFloat64_ok_of_ordGuard v t hg
    rw [checkCondition_ord v t op hop, if_pos hg]
    simp only [compareNumericUsingReflect, hx]
    rw [convertToFloat64_err_of_nonnumeric t ht]

/-- C6 witness: `checkCondition(5.0, "lt", 3)` takes the comparison branch
(float64 value, int operand) and returns the float comparison; and
`checkCondition(5, "lt", "x")` takes the branch too (int value short-circuits
the guard) but fails converting the string operand. -/
theorem claim_C6_witness :
    checkCondition (.vf64 5) "lt" (.vint 3) = .ok false ∧
    checkCondition (.vint 5) "lt" (.vstr "x") = .error (.invalidNumericType "string") := by
  constructor
  · obtain ⟨x, y, hx, hy, h⟩ :=
      (claim_C6 (.vf64 5) (.vint 3) "lt" (Or.inl rfl)).2.1 (by decide) (by decide)
    rw [h]
    cases hx
    cases hy
    rfl
  · exact (claim_C6 (.vint 5) (.vstr "x") "lt" (Or.inl rfl)).2.2 (by decide) (by decide)

/-- C6 counterexample to the claim as stated: a float32 value and a float64
operand are both numeric, yet the ordering comparison fails (with the
UnsupportedComparison error) because the guard only admits the kinds `int`
and `float64` for the value. -/
theorem claim_C6_counterexample :
    goIsNumeric (.vf32 5) = true ∧ goIsNumeric (.vf64 3) = true ∧
    checkCondition (.vf32 5) "lt" (.vf64 3) = .error (.unsupportedComparison "lt") :=
  ⟨rfl, rfl, rfl⟩

/-- Number of entries of a flat-condition list the leaf value satisfies
(entries whose evaluation is not `.ok true` -- including failing ones -- do
not count). -/
def satCount (v : GoVal) : FlatCond → Nat
  | [] => 0
  | (op, cv) :: t =>
    match checkCondition v op cv with
    | .ok true => 1 + satCount v t
    | _ => satCount v t

theorem xorScan_count (v : GoVal) (l : FlatCond)
    (hok : ∀ e ∈ l, ∃ b, checkCondition v e.1 e.2 = .ok b) :
    ∀ cnt, xorScan v cnt l = .ok (decide (cnt + satCount v l = 1)) := by
  induction l with
  | nil => intro cnt; simp [xorScan, satCount]
  | cons e tl ih =>
    intro cnt
    obtain ⟨op, cv⟩ := e
    obtain ⟨b, hb⟩ := hok (op, cv) (by simp)
    have hok' : ∀ e' ∈ tl, ∃ b, checkCondition v e'.1 e'.2 = .ok b :=
      fun e' he' => hok e' (by simp [he'])
    cases b with
    | true =>
      have h1 : xorScan v cnt ((op, cv) :: tl) = xorScan v (cnt + 1) tl := by
        simp [xorScan, hb]
      have h2 : satCount v ((op, cv) :: tl) = 1 + satCount v tl := by
        simp [satCount, hb]
      rw [h1, ih hok' (cnt + 1), h2]
      congr 1
      simp only [decide_eq_decide]
      omega
    | false =>
      have h1 : xorScan v cnt ((op, cv) :: tl) = xorScan v cnt tl := by
        simp [xorScan, hb]
      have h2 : satCount v ((op, cv) :: tl) = satCount v tl := by
        simp [satCount, hb]
      rw [h1, ih hok' cnt, h2]

/-- C7: `and` over an empty sub-condition list is vacuously true, `nor` over
an empty list is vacuously true, and `xor` evaluates every entry (no
satisfaction short-circuit; an evaluation error still aborts) and is true iff
exactly one entry is satisfied -- zero or more than one satisfied entries
yield false. -/
theorem claim_C7 :
    (∀ v : GoVal, evalCondition v (.logical [("and", [])]) = .ok true) ∧
    (∀ v : GoVal, evalCondition v (.logical [("nor", [])]) = .ok true) ∧
    (∀ (v : GoVal) (subs : List FlatCond),
      (∀ e ∈ concatConds subs, ∃ b, checkCondition v e.1 e.2 = .ok b) →
      evalCondition v (.logical [("xor", subs)]) =
        .ok (decide (satCount v (concatConds subs) = 1))) := by
  refine ⟨fun v => rfl, fun v => rfl, fun v subs hok => ?_⟩
  show xorScan v 0 (concatConds subs) = _
  rw [xorScan_count v _ hok 0]
  simp

/-- C7 witness: over `[{eq 1}, {eq 2}]` at leaf `1.0` exactly one entry is
satisfied, so `xor` yields true. -/
theorem claim_C7_witness :
    evalCondition (.vf64 1)
      (.logical [("xor", [[("eq", GoVal.vf64 1)], [("eq", GoVal.vf64 2)]])]) = .ok true := by
  have h := claim_C7.2.2 (.vf64 1) [[("eq", GoVal.vf64 1)], [("eq", GoVal.vf64 2)]]
    (by
      intro e he
      simp [concatConds] at he
      rcases he with rfl | rfl
      · exact ⟨true, rfl⟩
      · exact ⟨false, rfl⟩)
  exact h

/-- C8: `neq` short-circuits to true whenever the dynamic types differ
(`reflect.TypeOf` comparison), before any content comparison; with equal
dynamic types it is true iff the two values are not structurally
(`reflect.DeepEqual`) equal. -/
theorem claim_C8 (v t : GoVal) :
    (goTypeOf v ≠ goTypeOf t → checkCondition v "neq" t = .ok true) ∧
    (goTypeOf v = goTypeOf t → checkCondition v "neq" t = .ok (!deepEqual v t)) := by
  constructor <;> intro h <;> simp [checkCondition, h]

/-- C8 witness: `checkCondition(5, "neq", "5")` is true purely by the type
mismatch (int vs string), although the two are numerically equal when coerced
to strings. -/
theorem claim_C8_witness :
    checkCondition (.vint 5) "neq" (.vstr "5") = .ok true :=
  (claim_C8 (.vint 5) (.vstr "5")).1 (by decide)

/-- C4 (amended): the concrete scenario on `{"a":{"b":1,"c":[10,20,30]}}`.
Find, Add-append and Remove behave as the claim states; the final
FindAllWithCondition("a", {gt: 25}) returns the two matching Sequence
elements in sequence order, but the returned paths carry the start path as a
prefix: `["a.c[1]", "a.c[2]"]`, not `["c[1]", "c[2]"]`.  (The map sibling
`b` matches nothing, so the result is independent of Go's map iteration
order.) -/
theorem claim_C4 :
    goFind [("a", GoVal.vmap [("b", GoVal.vf64 1),
        ("c", GoVal.varr [GoVal.vf64 10, GoVal.vf64 20, GoVal.vf64 30])])] "a.c[1]" =
      .ok (.vf64 20) ∧
    goAdd [("a", GoVal.vmap [("b", GoVal.vf64 1),
        ("c", GoVal.varr [GoVal.vf64 10, GoVal.vf64 20, GoVal.vf64 30])])] "a.c[-1]"
        (.vf64 40) =
      .okAppend (.vmap [("a", GoVal.vmap [("b", GoVal.vf64 1),
        ("c", GoVal.varr [GoVal.vf64 10, GoVal.vf64 20, GoVal.vf64 30, GoVal.vf64 40])])]) ∧
    goRemove [("a", GoVal.vmap [("b", GoVal.vf64 1),
        ("c", GoVal.varr [GoVal.vf64 10, GoVal.vf64 20, GoVal.vf64 30, GoVal.vf64 40])])]
        "a.c.0" =
      .ok [("a", GoVal.vmap [("b", GoVal.vf64 1),
        ("c", GoVal.varr [GoVal.vf64 20, GoVal.vf64 30, GoVal.vf64 40])])] ∧
    goFindAll [("a", GoVal.vmap [("b", GoVal.vf64 1),
        ("c", GoVal.varr [GoVal.vf64 20, GoVal.vf64 30, GoVal.vf64 40])])] "a"
        (.flat [("gt", GoVal.vint 25)]) =
      .ok ["a.c[1]", "a.c[2]"] :=
  ⟨rfl, rfl, rfl, rfl⟩

/-- C4 counterexample to the claim as stated: after the mutations, the query
returns `["a.c[1]", "a.c[2]"]` -- the evaluation starts with
`currentPath = keyPath`, so every result carries the start path prefix --
which differs from the claimed `["c[1]", "c[2]"]`. -/
theorem claim_C4_counterexample :
    goFindAll [("a", GoVal.vmap [("b", GoVal.vf64 1),
        ("c", GoVal.varr [GoVal.vf64 20, GoVal.vf64 30, GoVal.vf64 40])])] "a"
        (.flat [("gt", GoVal.vint 25)]) =
      .ok ["a.c[1]", "a.c[2]"] ∧
    (["a.c[1]", "a.c[2]"] : List String) ≠ ["c[1]", "c[2]"] :=
  ⟨rfl, by decide⟩
